import Mathlib

/-!
Verification development for the import-resolution engine of the
vscode-haste repository (src/edge/JavaScript.ts and the unnamed source
parts).  The TypeScript code is shallowly embedded: each embedded
definition carries a comment pointing at the source lines it was
translated from.  Positions and AST nodes follow the babylon parser's
shape restricted to the constructors the embedded functions inspect.
-/

namespace VH

/-- A babylon source position (1-based `line`, 0-based `column`). -/
structure SrcPos where
  line : Nat
  column : Nat
deriving DecidableEq, Repr

/-- A babylon `loc` record: start and end positions of a node.  The
source field `end` is a reserved word in Lean, so it is called `stop`. -/
structure SrcLoc where
  start : SrcPos
  stop : SrcPos
deriving DecidableEq, Repr

/-- Converts a babylon position (1-based line) to a VS Code position
(0-based line), as done by `new vscode.Position(loc.line - 1, loc.column)`
throughout src/edge/JavaScript.ts. -/
def vsPos (p : SrcPos) : SrcPos :=
  ⟨p.line - 1, p.column⟩

/-- A string literal node (babylon `StringLiteral`): its `value` and
source range.  In babylon an `ImportDeclaration.source` is always a
string literal, so the defensive check at JavaScript.ts:799
(`line.source.type === 'StringLiteral'`) is always true in this
embedding. -/
structure StringLit where
  value : String
  loc : SrcLoc
deriving DecidableEq, Repr

/-- A call-expression argument: either a string literal or any other
expression (whose `value` field would be `undefined` in JavaScript). -/
inductive Arg where
  | stringLit (value : String) (loc : SrcLoc)
  | otherArg (loc : SrcLoc)
deriving DecidableEq, Repr

/-- The `value` field of an argument; `none` models `undefined`. -/
def Arg.value? : Arg → Option String
  | .stringLit v _ => some v
  | .otherArg _ => none

/-- True when the argument is a `StringLiteral` node. -/
def Arg.isStringLit : Arg → Bool
  | .stringLit _ _ => true
  | .otherArg _ => false

/-- An import specifier of a static `ImportDeclaration` (babylon):
`import d from p` / `import { i as l } from p` / `import * as n from p`. -/
inductive ImportSpecifier where
  | importDefaultSpecifier (localName : String) (loc : SrcLoc)
  | importSpecifier (importedName : String) (localName : String) (loc : SrcLoc)
  | importNamespaceSpecifier (localName : String) (loc : SrcLoc)
deriving DecidableEq, Repr

/-- The `local.name` field shared by all three specifier kinds
(read at JavaScript.ts:553 via `_.get(spec, 'local.name', '')`). -/
def ImportSpecifier.localName : ImportSpecifier → String
  | .importDefaultSpecifier n _ => n
  | .importSpecifier _ n _ => n
  | .importNamespaceSpecifier n _ => n

/-- The source range of a specifier node. -/
def ImportSpecifier.loc : ImportSpecifier → SrcLoc
  | .importDefaultSpecifier _ l => l
  | .importSpecifier _ _ l => l
  | .importNamespaceSpecifier _ l => l

/-- Recognizer for `ImportNamespaceSpecifier` (JavaScript.ts:466). -/
def ImportSpecifier.isNamespaceSpec : ImportSpecifier → Bool
  | .importNamespaceSpecifier _ _ => true
  | _ => false

/-- Recognizer for `ImportSpecifier` (the named form, JavaScript.ts:509). -/
def ImportSpecifier.isNamedSpec : ImportSpecifier → Bool
  | .importSpecifier _ _ _ => true
  | _ => false

/-- Recognizer for `ImportDefaultSpecifier` (JavaScript.ts:505). -/
def ImportSpecifier.isDefaultSpec : ImportSpecifier → Bool
  | .importDefaultSpecifier _ _ => true
  | _ => false

/-- The right-hand side of a `module.exports = ...` assignment, as far
as the code inspects it (JavaScript.ts:951-952): either an object
literal whose property key names are collected, or anything else. -/
inductive ModuleRight where
  | objectWithKeys (keys : List String)
  | otherRight
deriving DecidableEq, Repr

/-- An expression, restricted to the shapes the embedded functions
pattern-match on: a call to the identifier `require`, another call, a
`module.exports = ...` assignment (the `MODULE_EXPORTS` template at
JavaScript.ts:739-749), or anything else. -/
inductive Expr where
  | callRequire (args : List Arg) (loc : SrcLoc)
  | callOther (args : List Arg) (loc : SrcLoc)
  | assignModuleExports (right : ModuleRight) (loc : SrcLoc)
  | otherExpr (loc : SrcLoc)
deriving DecidableEq, Repr

/-- A variable declarator `id = init` inside a `VariableDeclaration`. -/
structure Declarator where
  localName : String
  init : Option Expr
  loc : SrcLoc
deriving DecidableEq, Repr

/-- The declaration attached to an `ExportNamedDeclaration`: a function
declaration (its `id.name` is collected), a variable declaration (its
declarator names are collected), or another kind (e.g. a class), see
JavaScript.ts:937-945. -/
inductive DeclKind where
  | functionDecl (name : String)
  | variableDeclKind (names : List String)
  | otherDeclKind
deriving DecidableEq, Repr

/-- An `ExportSpecifier`: `export { local as exported }`.  `exportedName`
is `none` when the node has no `exported` field (JavaScript.ts:945 reads
`item.exported ? item.exported.name : item.local.name`). -/
structure ExportSpecifier where
  localName : String
  exportedName : Option String
  loc : SrcLoc
deriving DecidableEq, Repr

/-- A top-level program statement, restricted to the constructors that
`getExistingImports`, `fixImport` and `getExportedVariables` inspect. -/
inductive Stmt where
  | importDecl (specifiers : List ImportSpecifier) (source : StringLit) (loc : SrcLoc)
  | variableDecl (declarations : List Declarator) (loc : SrcLoc)
  | exprStmt (expression : Expr) (loc : SrcLoc)
  | exportNamedDecl (declaration : Option DeclKind) (specifiers : List ExportSpecifier)
      (source : Option StringLit) (loc : SrcLoc)
  | exportAllDecl (source : StringLit) (loc : SrcLoc)
  | exportDefaultDecl (loc : SrcLoc)
  | otherStmt (loc : SrcLoc)
deriving DecidableEq, Repr

/-- A parsed file: `codeTree.program.body`.  `JavaScript.parse`
(JavaScript.ts:268-291) produces `Option CodeTree`: `none` models the
`null` returned when babylon throws on malformed source. -/
structure CodeTree where
  body : List Stmt
deriving DecidableEq, Repr

/-- Models `String.prototype.startsWith` on the character list of a
string (used so that prefixes of appended strings stay provable). -/
def strStartsWith (s pre : String) : Bool :=
  pre.toList.isPrefixOf s.toList

/-- Models `String.prototype.includes` for a single character. -/
def strContainsChar (s : String) (c : Char) : Bool :=
  s.toList.contains c

/-- Models lodash `_.trimEnd(s, '/')` as used at JavaScript.ts:803: it
removes every trailing `/` character, not just one. -/
def trimTrailingSlashes (s : String) : String :=
  String.mk ((s.toList.reverse.dropWhile (fun c => c = '/')).reverse)

/-- The node stored in an `ImportStatementForReadOnly` record: the whole
`ImportDeclaration`, the matched `VariableDeclarator`, or the whole
`require(...)` expression statement (JavaScript.ts:800,814,824). -/
inductive ImportNode where
  | importDeclNode (specifiers : List ImportSpecifier) (source : StringLit) (loc : SrcLoc)
  | declaratorNode (d : Declarator)
  | exprRequireNode (args : List Arg) (loc : SrcLoc)
deriving DecidableEq, Repr

/-- Recognizer for `node.type === 'ImportDeclaration'` on a stored node
(JavaScript.ts:465,552). -/
def ImportNode.isImportDeclNode : ImportNode → Bool
  | .importDeclNode _ _ _ => true
  | _ => false

/-- The record produced by `getExistingImports` (JavaScript.ts:785-790):
the owning node, the recorded path (`none` models an `undefined` path
when `arguments[0]` is not a string literal), and the source range
spread from the owning statement's `loc`. -/
structure ImportStatementForReadOnly where
  node : ImportNode
  path : Option String
  start : SrcPos
  stop : SrcPos
deriving DecidableEq, Repr

/-- Whether a declarator matches the `MODULE_REQUIRE` template
(JavaScript.ts:751-763) under lodash `_.isMatch` partial-comparison
semantics: the initializer is a call to `require` and the template's
one-element `arguments` array partially matches, i.e. the call has at
least one argument and some argument is a string literal. -/
def matchesModuleRequire (d : Declarator) : Bool :=
  match d.init with
  | some (.callRequire args _) => decide (1 ≤ args.length) && args.any Arg.isStringLit
  | _ => false

/-- The recorded path of a matched require declarator:
`stub.init.arguments[0].value` (JavaScript.ts:816). -/
def requireArgPath (d : Declarator) : Option String :=
  match d.init with
  | some (.callRequire args _) => args.head?.bind Arg.value?
  | _ => none

/-- Embedding of `getExistingImports` (JavaScript.ts:792-832).  The
three concatenated groups recognize static import declarations,
`var ... = require('...')` declarators, and bare `require('...')`
expression statements.  A `none` tree (parse failure) yields `[]`
because of the `codeTree && codeTree.program && codeTree.program.body`
guard at line 794. -/
def getExistingImports : Option CodeTree → List ImportStatementForReadOnly
  | none => []
  | some t =>
    (t.body.filterMap fun s =>
      match s with
      | .importDecl specs src loc =>
          some ⟨.importDeclNode specs src loc, some (trimTrailingSlashes src.value), loc.start, loc.stop⟩
      | _ => none)
    ++ (t.body.flatMap fun s =>
      match s with
      | .variableDecl decls loc =>
          decls.filterMap fun d =>
            if matchesModuleRequire d then
              some ⟨.declaratorNode d, requireArgPath d, loc.start, loc.stop⟩
            else none
      | _ => [])
    ++ (t.body.filterMap fun s =>
      match s with
      | .exprStmt (.callRequire args _) loc =>
          if args.length = 1 then
            some ⟨.exprRequireNode args loc, args.head?.bind Arg.value?, loc.start, loc.stop⟩
          else none
      | _ => none)

/-- Embedding of `getDuplicateImport` (JavaScript.ts:977-979):
`existingImports.find(stub => stub.path === path)` where `path` is a
string, so a record with an `undefined` path never matches. -/
def getDuplicateImport (existingImports : List ImportStatementForReadOnly) (path : String) :
    Option ImportStatementForReadOnly :=
  existingImports.find? fun stub => stub.path = some path

/-! ### getVariableName (JavaScript.ts:834-864) -/

/-- A predefined-variable-name rule (JavaScript.ts:835-839).  The
regular-expression test and replacement are abstracted as functions. -/
structure VarNameRule where
  test : String → Bool
  apply : String → String

/-- The naming conventions of `LanguageOptions.variableNamingConvention`
(JavaScript.ts:18). -/
inductive NamingConvention where
  | camelCase
  | pascalCase
  | snakeCase
  | lowercase
  | noneConvention
deriving DecidableEq, Repr

/-- The character class of the default branch's regular expression
`/[a-z_$1-9]/gi` (JavaScript.ts:862): ASCII letters of either case,
underscore, dollar, and the digits 1-9 — the digit 0 is NOT included. -/
def isVariableChar (c : Char) : Bool :=
  (decide (Char.ofNat 97 ≤ c) && decide (c ≤ Char.ofNat 122)) ||
  (decide (Char.ofNat 65 ≤ c) && decide (c ≤ Char.ofNat 90)) ||
  c = '_' || c = '$' ||
  (decide ('1' ≤ c) && decide (c ≤ '9'))

/-- Embedding of `getVariableName` (JavaScript.ts:834-864).  The four
lodash case-convention branches always produce a string and are
abstracted by the total parameter `caseFn`; the default branch is
concrete.  The result is `none` when `name.match(/[a-z_$1-9]/gi)`
returns `null` and `.join('')` would therefore throw a `TypeError`. -/
def getVariableName (caseFn : NamingConvention → String → String)
    (rules : List VarNameRule) (convention : NamingConvention) (name : String) :
    Option String :=
  match rules.find? fun r => r.test name with
  | some r => some (r.apply name)
  | none =>
    let name := String.mk (name.toList.dropWhile Char.isDigit)
    match convention with
    | .camelCase => some (caseFn .camelCase name)
    | .pascalCase => some (caseFn .pascalCase name)
    | .snakeCase => some (caseFn .snakeCase name)
    | .lowercase => some (caseFn .lowercase name)
    | .noneConvention =>
      let cs := name.toList.filter isVariableChar
      if cs.isEmpty then none else some (String.mk cs)

/-! ### getExportedVariables (JavaScript.ts:930-965) -/

/-- Embedding of `getExportedVariables` (JavaScript.ts:930-965).
`parseFile` composes reading a file with `JavaScript.parse` (both
failures are caught and yield `[]`); `resolveExt` abstracts
`getFilePathWithExtension` (path resolution plus an existence check,
JavaScript.ts:967-975).  The `fuel` argument models the JavaScript call
stack: the source function recurses through `ExportAllDeclaration`
nodes with no cycle guard, and a stack overflow is caught by the
surrounding `try` and also yields `[]`. -/
def getExportedVariables (parseFile : String → Option CodeTree)
    (resolveExt : String → String → String) : Nat → String → List String
  | 0, _ => []
  | fuel + 1, filePath =>
    match parseFile filePath with
    | none => []
    | some t =>
      (((t.body.map fun node =>
        match node with
        | .exportNamedDecl (some (.functionDecl fname)) _ _ _ => [fname]
        | .exportNamedDecl (some (.variableDeclKind names)) _ _ _ => names
        | .exportNamedDecl _ specs _ _ => specs.map fun s => s.exportedName.getD s.localName
        | .exportAllDecl src _ =>
            if src.value ≠ "" then
              getExportedVariables parseFile resolveExt fuel (resolveExt filePath src.value)
            else []
        | .exprStmt (.assignModuleExports (.objectWithKeys keys) _) _ => keys
        | _ => []).flatten.filter fun n => n ≠ "").filter fun n => n ≠ "default")

/-! ### fixImport (JavaScript.ts:128-254) -/

/-- The editable record built for each fixable import
(JavaScript.ts:136-161): the literal path and the VS Code range of the
source literal (`loc.start.line - 1` / `loc.end.line - 1`). -/
structure ImportStatementForFixingImport where
  originalRelativePath : String
  editableRange : SrcLoc
deriving DecidableEq, Repr

/-- Constructor of `ImportStatementForFixingImport`
(JavaScript.ts:141-144). -/
def mkFixStatement (path : String) (loc : SrcLoc) : ImportStatementForFixingImport :=
  ⟨path, ⟨vsPos loc.start, vsPos loc.stop⟩⟩

/-- The filter applied to static import declarations at
JavaScript.ts:178-184: the literal starts with `.` and contains none of
the characters `?`, `!`, `"`. -/
def isFixableImportPath (v : String) : Bool :=
  strStartsWith v "." &&
  !(strContainsChar v '?') &&
  !(strContainsChar v '!') &&
  !(strContainsChar v (Char.ofNat 34))

/-- The `ImportDeclaration` part of `totalImports`
(JavaScript.ts:177-186): declarations whose source passes
`isFixableImportPath` become fix records built from the source
literal's value and range. -/
def importDeclEntries (t : CodeTree) : List ImportStatementForFixingImport :=
  t.body.filterMap fun s =>
    match s with
    | .importDecl _ src _ =>
        if isFixableImportPath src.value then some (mkFixStatement src.value src.loc) else none
    | _ => none

/-- The require calls collected by `findRequireRecursively`
(JavaScript.ts:981-1006) restricted to this embedding's expression
depth: calls to `require` with exactly one string-literal argument;
returns the argument's value and range. -/
def exprRequireCalls : Expr → List (String × SrcLoc)
  | .callRequire args _ =>
    match args with
    | [.stringLit v l] => [(v, l)]
    | _ => []
  | _ => []

/-- All require calls reachable from a statement (the recursive walk of
`findRequireRecursively` flattened over this embedding's AST). -/
def stmtRequireCalls (s : Stmt) : List (String × SrcLoc) :=
  match s with
  | .exprStmt e _ => exprRequireCalls e
  | .variableDecl ds _ => ds.flatMap fun d => (d.init.map exprRequireCalls).getD []
  | _ => []

/-- The `require` part of `totalImports` (JavaScript.ts:187-190):
recursively found require calls whose literal starts with `.`. -/
def requireEntries (t : CodeTree) : List ImportStatementForFixingImport :=
  ((t.body.flatMap stmtRequireCalls).filter fun p => strStartsWith p.1 ".").map
    fun p => mkFixStatement p.1 p.2

/-- Embedding of `totalImports` (JavaScript.ts:176-191): import-declaration entries,
then require entries, keeping only truthy (non-empty) paths. -/
def totalImports (t : CodeTree) : List ImportStatementForFixingImport :=
  (importDeclEntries t ++ requireEntries t).filter fun e => e.originalRelativePath ≠ ""

/-- The collection phase of `fixImport` applied to a parse result.  The
source (JavaScript.ts:174-177) reads `codeTree.program.body` without a
null check, so a failed parse (`none`) raises a `TypeError` instead of
being skipped; the error constructor models that exception. -/
def fixImportTotalImports (tree : Option CodeTree) :
    Except String (List ImportStatementForFixingImport) :=
  match tree with
  | none => .error "TypeError: cannot read property of null"
  | some t => .ok (totalImports t)

/-- The single-quote character, written numerically. -/
def singleQuoteChar : Char := Char.ofNat 39

/-- A one-character string holding a single quote. -/
def singleQuoteStr : String := String.mk [singleQuoteChar]

/-- A one-character string holding a double quote. -/
def doubleQuoteStr : String := String.mk [Char.ofNat 34]

/-- The `quoteChar` getter (JavaScript.ts:146-153): the quote of the
original literal text at the editable range, defaulting to a double
quote.  `docText` abstracts `document.getText(range)`. -/
def quoteCharOf (docText : SrcLoc → String) (it : ImportStatementForFixingImport) : String :=
  if strStartsWith (docText it.editableRange) singleQuoteStr then singleQuoteStr
  else doubleQuoteStr

/-- An edit applied to the working document through `editor.edit`:
positions are VS Code coordinates. -/
inductive EditOp where
  | replaceRange (loc : SrcLoc) (text : String)
  | insertAt (pos : SrcPos) (text : String)
  | deleteRange (loc : SrcLoc)
deriving DecidableEq, Repr

/-- Result of the first resolution loop of `fixImport`
(JavaScript.ts:203-223). -/
structure FixLoopResult where
  edits : List EditOp
  nonResolvableImports : List ImportStatementForFixingImport
  manualSolvableImports : List ImportStatementForFixingImport
  wasCancelled : Bool
deriving DecidableEq, Repr

/-- Embedding of the first loop of `fixImport` (JavaScript.ts:203-223).
`cancelled i` models `cancellationToken.isCancellationRequested` at the
i-th iteration; `search` models `findFilesRoughly` (deterministic, so
the per-pass memoization at JavaScript.ts:155-160 is behaviorally
transparent); `computeRel` models the path computed through
`FileItem.getNameAndRelativePath` for a chosen full path
(JavaScript.ts:216).  Zero matches records the entry as unresolved; one
match replaces the literal range with the recomputed path wrapped in
the original quote character; several matches defer the entry to the
manual (quick-pick) loop. -/
def fixLoop1 (cancelled : Nat → Bool) (search : String → List String)
    (computeRel : String → String) (docText : SrcLoc → String) :
    Nat → List ImportStatementForFixingImport → FixLoopResult
  | _, [] => ⟨[], [], [], false⟩
  | i, e :: rest =>
    if cancelled i then ⟨[], [], [], true⟩
    else
      let tail := fixLoop1 cancelled search computeRel docText (i + 1) rest
      match search e.originalRelativePath with
      | [] => ⟨tail.edits, e :: tail.nonResolvableImports, tail.manualSolvableImports, tail.wasCancelled⟩
      | [m] =>
          ⟨.replaceRange e.editableRange
              (quoteCharOf docText e ++ computeRel m ++ quoteCharOf docText e) :: tail.edits,
            tail.nonResolvableImports, tail.manualSolvableImports, tail.wasCancelled⟩
      | _ => ⟨tail.edits, tail.nonResolvableImports, e :: tail.manualSolvableImports, tail.wasCancelled⟩

/-- The edit produced for a single-match entry, used to state the
characterization of `fixLoop1`. -/
def singleMatchEdit (search : String → List String) (computeRel : String → String)
    (docText : SrcLoc → String) (e : ImportStatementForFixingImport) : Option EditOp :=
  match search e.originalRelativePath with
  | [m] => some (.replaceRange e.editableRange
      (quoteCharOf docText e ++ computeRel m ++ quoteCharOf docText e))
  | _ => none

/-- True when the fuzzy search finds no file for the entry
(JavaScript.ts:211). -/
def zeroMatches (search : String → List String) (e : ImportStatementForFixingImport) : Bool :=
  match search e.originalRelativePath with
  | [] => true
  | _ => false

/-- True when the fuzzy search finds two or more files for the entry
(the fall-through branch at JavaScript.ts:220-222). -/
def manyMatches (search : String → List String) (e : ImportStatementForFixingImport) : Bool :=
  match search e.originalRelativePath with
  | _ :: _ :: _ => true
  | _ => false

/-! ### RecentSelectedItems (src/unnamed/part_002) -/

/-- A candidate item as seen by the recency tracker: only its stable
`id` matters for ranking; `label` keeps distinct items with equal ids
distinguishable so that stability is a meaningful statement. -/
structure Item where
  id : String
  label : String
deriving DecidableEq, Repr

/-- The recency tracker (part_002 lines 4-9): a map from language
constructor name to the ordered list of recently used candidate ids,
most recent first, and the configured bound. -/
structure RecentSelectedItems where
  data : List (String × List String)
  limit : Nat
deriving DecidableEq, Repr

/-- Lookup, modelling `Map.get` on the association list backing `data`. -/
def RecentSelectedItems.get (r : RecentSelectedItems) (languageName : String) :
    Option (List String) :=
  (r.data.find? fun p => p.1 = languageName).map fun p => p.2

/-- Update, modelling `Map.set` on the association list backing `data`: replaces the
entry when present, appends otherwise. -/
def dataSet (d : List (String × List String)) (k : String) (v : List String) :
    List (String × List String) :=
  if d.any fun p => p.1 = k then
    d.map fun p => if p.1 = k then (k, v) else p
  else d ++ [(k, v)]

/-- Embedding of `RecentSelectedItems.has` (part_002 lines 12-14):
the key is present and its list is non-empty. -/
def RecentSelectedItems.has (r : RecentSelectedItems) (languageName : String) : Bool :=
  match r.get languageName with
  | some l => decide (0 < l.length)
  | none => false

/-- The rank of an id in the history list, as built by the `reduce` at
part_002 lines 22-25: `hash[id] = rank` is assigned for every index in
order, so for a duplicated id the last index wins; a missing id has no
rank (`undefined`, compared as `Infinity` by the sort callback). -/
def lastIdxOf (l : List String) (x : String) : Option Nat :=
  l.enum.foldl (fun acc p => if p.2 = x then some p.1 else acc) none

/-- The comparison induced by the sort callback at part_002 lines 27-30:
ranks compare numerically and a missing rank (`Infinity`) sorts after
every recorded rank. -/
def rankLeB : Option Nat → Option Nat → Bool
  | _, none => true
  | none, some _ => false
  | some a, some b => decide (a ≤ b)

/-- The comparison used by the sort callback of
`RecentSelectedItems.sort` (part_002 lines 27-30): items compare by
their recorded rank. -/
def recencyLe (list : List String) (a b : Item) : Bool :=
  rankLeB (lastIdxOf list a.id) (lastIdxOf list b.id)

/-- Embedding of `RecentSelectedItems.sort` (part_002 lines 16-31): no
recorded history returns the items unchanged; otherwise the items are
stable-sorted by recorded rank (lodash `_.sortBy` is a stable sort,
modeled by `List.mergeSort`). -/
def RecentSelectedItems.sortItems (r : RecentSelectedItems) (languageName : String)
    (items : List Item) : List Item :=
  if r.has languageName = false then items
  else
    let list := (r.get languageName).getD []
    items.mergeSort (recencyLe list)

/-- The list update performed by `markAsRecentlyUsed` (part_002 lines
39-45): remove the first occurrence of the selected id if present
(`list.splice(list.indexOf(id), 1)`), prepend the id (`unshift`), and
pop the last (oldest) entry when the bound is exceeded. -/
def markedList (limit : Nat) (list : List String) (selectedId : String) : List String :=
  let list := if list.contains selectedId then list.erase selectedId else list
  let list := selectedId :: list
  if limit < list.length then list.dropLast else list

/-- Embedding of `RecentSelectedItems.markAsRecentlyUsed` (part_002
lines 33-46): ensure the key exists (defaulting to `[]`), then apply
`markedList` and store the result back under the language's key. -/
def RecentSelectedItems.markAsRecentlyUsed (r : RecentSelectedItems)
    (languageName : String) (selectedId : String) : RecentSelectedItems :=
  ⟨dataSet r.data languageName (markedList r.limit ((r.get languageName).getD []) selectedId),
    r.limit⟩

/-! ### File candidate cache (JavaScript.ts:28-126) -/

/-- The fields of `FileInfo` (defined in FileInfo.ts, outside the given
sources) that `JavaScript.getItems` reads; modelled as given data per
spec section 4.1 (PathInfo). -/
structure FileInfoM where
  fullPath : String
  fullPathForPOSIX : String
  fileExtensionWithoutLeadingDot : String
deriving DecidableEq, Repr

/-- A cached file candidate.  `FileItem`'s constructor sets
`this.id = this.fileInfo.fullPath` (JavaScript.ts:306); the display
fields are irrelevant to the cache claims and are omitted. -/
structure FileItemM where
  id : String
  fileInfo : FileInfoM
deriving DecidableEq, Repr

/-- Constructor `new FileItem(filePath, ...)` as far as the cache is concerned. -/
def mkFileItem (fi : FileInfoM) : FileItemM :=
  ⟨fi.fullPath, fi⟩

/-- The `TYPESCRIPT_EXTENSION` test `/^tsx?$/` (JavaScript.ts:26). -/
def isTypeScriptExtension (ext : String) : Bool :=
  ext = "ts" || ext = "tsx"

/-- The per-plugin mutable cache state (JavaScript.ts:30): the node
package cache is keyed by `node://` ids and kept separately, so only
the file cache is modelled. -/
structure JsLanguageState where
  fileItemCache : Option (List FileItemM)
deriving DecidableEq, Repr

/-- A compiled entry of `filteredFileList` (JavaScript.ts:69-71); the
two regular expressions are abstracted as Boolean tests. -/
structure FileFilterRule where
  documentPathTest : String → Bool
  filePathTest : String → Bool

/-- Embedding of the file-candidate part of `JavaScript.getItems`
(JavaScript.ts:52-86): build the cache from every workspace file when
absent, then reject the requesting document's own file, filter
TypeScript files unless allowed, apply the optional path-pattern rule,
and sort by the two sort keys (`getSortablePath` lives in global.ts,
outside the given sources, so the keys are abstracted).  Returns the
new state and the candidate list handed to the caller. -/
def getItems (st : JsLanguageState) (workspaceFiles : List FileInfoM) (doc : FileInfoM)
    (allowTypeScriptFiles : Bool) (fileFilterRule : Option FileFilterRule)
    (sortKeyPath : FileItemM → String) (sortKeyName : FileItemM → String) :
    JsLanguageState × List FileItemM :=
  let cache := match st.fileItemCache with
    | some c => c
    | none => workspaceFiles.map mkFileItem
  let items := cache.filter fun it =>
    decide (it.fileInfo.fullPath ≠ doc.fullPath) &&
    (allowTypeScriptFiles || !isTypeScriptExtension it.fileInfo.fileExtensionWithoutLeadingDot) &&
    (match fileFilterRule with
     | some rule => rule.filePathTest it.fileInfo.fullPathForPOSIX
     | none => true)
  let items := items.mergeSort fun a b =>
    decide (sortKeyPath a < sortKeyPath b ∨
      (sortKeyPath a = sortKeyPath b ∧ sortKeyName a ≤ sortKeyName b))
  (⟨some cache⟩, items)

/-- Embedding of `JavaScript.addItem` (JavaScript.ts:111-116): pushes a
new candidate only when the cache already exists. -/
def addItem (st : JsLanguageState) (fi : FileInfoM) : JsLanguageState :=
  match st.fileItemCache with
  | some c => ⟨some (c ++ [mkFileItem fi])⟩
  | none => st

/-- Embedding of `JavaScript.cutItem` (JavaScript.ts:118-126): removes
the first cached candidate with the given full path. -/
def cutItem (st : JsLanguageState) (fi : FileInfoM) : JsLanguageState :=
  match st.fileItemCache with
  | some c => ⟨some (c.eraseP fun it => it.fileInfo.fullPath = fi.fullPath)⟩
  | none => st

/-- Embedding of `JavaScript.reset` (JavaScript.ts:263-266). -/
def resetState (_st : JsLanguageState) : JsLanguageState :=
  ⟨none⟩

/-! ### FileItem.addImport (JavaScript.ts:350-594) -/

/-- The `syntax` language option (JavaScript.ts:11). -/
inductive ImportOrRequire where
  | importMode
  | requireMode
deriving DecidableEq, Repr

/-- The `quoteCharacter` language option (JavaScript.ts:15). -/
inductive QuoteKind where
  | singleQuote
  | doubleQuote
deriving DecidableEq, Repr

/-- The language options consumed by the statement-generation code
(JavaScript.ts:10-20); the naming and filtering options are handled by
the separately embedded functions. -/
structure LanguageOptions where
  syntaxMode : ImportOrRequire
  grouping : Bool
  fileExtension : Bool
  indexFile : Bool
  quoteCharacter : QuoteKind
  semiColons : Bool
deriving DecidableEq, Repr

/-- An opening-brace string, written with an escape so that the brace
stays literal text. -/
def lbraceStr : String := "\x7b"

/-- A closing-brace string. -/
def rbraceStr : String := "\x7d"

/-- Renders `{ iden }` as built at JavaScript.ts:399,417,454. -/
def bracedName (iden : String) : String :=
  lbraceStr ++ " " ++ iden ++ " " ++ rbraceStr

/-- Embedding of `getImportSnippet` (JavaScript.ts:866-889). -/
def getImportSnippet (name : Option String) (path : String) (useImport : Bool)
    (options : LanguageOptions) (eolCRLF : Bool) : String :=
  let quoted := match options.quoteCharacter with
    | .singleQuote => singleQuoteStr ++ path ++ singleQuoteStr
    | .doubleQuote => doubleQuoteStr ++ path ++ doubleQuoteStr
  let lineEnding := (if options.semiColons then ";" else "") ++
    (if eolCRLF then "\r\n" else "\n")
  if useImport then
    match name with
    | some n => "import " ++ n ++ " from " ++ quoted ++ lineEnding
    | none => "import " ++ quoted ++ lineEnding
  else
    match name with
    | some n => "const " ++ n ++ " = require(" ++ quoted ++ ")" ++ lineEnding
    | none => "require(" ++ quoted ++ ")"

/-- The two options of the naming-conflict modal dialog
(JavaScript.ts:560); dismissal of the dialog is modelled as `none`. -/
inductive ConflictChoice where
  | replaceIt
  | keepBoth
deriving DecidableEq, Repr

/-- The inputs of one `FileItem.addImport` run that come from outside
the embedded control flow: the file-system and path computations named
in each comment, and the external choices of the user. -/
structure AddImportInputs where
  /-- Result of `this.extension.test(this.fileInfo.fileExtensionWithoutLeadingDot)`, line 367. -/
  extensionMatches : Bool
  /-- the stylesheet extension test, line 572. -/
  isStylesheetExtension : Bool
  /-- Value of `this.label`, used in the stylesheet duplicate message, line 577. -/
  displayLabel : String
  /-- Value of `getNameAndRelativePath().name`, line 369. -/
  initialName : String
  /-- Value of `getNameAndRelativePath().path`, line 369. -/
  initialPath : String
  /-- Result of `this.hasIndexFile()`, line 375. -/
  hasIndexFile : Bool
  /-- Result of `this.getExportedVariablesFromIndexFile()`, line 376. -/
  exportedVariablesFromIndexFile : List String
  /-- the index-file relative path computed at lines 378-384. -/
  indexFileRelativePath : String
  /-- the default-export detection of lines 427-434. -/
  foreignFileHasDefaultExport : Bool
  /-- Result of `getExportedVariables(this.fileInfo.fullPath)`, line 437. -/
  exportedVariables : List String
  /-- the quick-pick result at line 407 (`none` = dismissed). -/
  quickPickIndexChoice : Option String
  /-- the quick-pick result at line 444 (`none` = dismissed). -/
  quickPickFileChoice : Option String
  /-- the modal-dialog result at line 561 (`none` = dismissed). -/
  conflictChoice : Option ConflictChoice
  /-- the brace-adjusted replacement range of lines 477-493. -/
  namespaceReplaceRange : SrcLoc
  /-- Position of the active cursor, line 590. -/
  cursorPosition : SrcPos
  /-- Whether the document uses CRLF line endings, line 873. -/
  eolCRLF : Bool
deriving Repr

/-- Match against the `IMPORT_EVERYTHING` template (JavaScript.ts:387,776-783):
an import declaration whose specifier list contains an
`ImportNamespaceSpecifier` (lodash partial array matching). -/
def isMatchImportEverything (n : ImportNode) : Bool :=
  match n with
  | .importDeclNode specs _ _ => specs.any ImportSpecifier.isNamespaceSpec
  | _ => false

/-- Duplicate message with a source location, line 391. -/
def alreadyImportedFromMsg (name path : String) : String :=
  "The module " ++ name ++ " has been already imported from " ++ path ++ "."

/-- Duplicate message naming the namespace binding, line 470. -/
def alreadyImportedAsMsg (path localName : String) : String :=
  "The module " ++ path ++ " has been already imported as " ++ localName ++ "."

/-- Plain duplicate message, lines 516, 545, 577, 720. -/
def alreadyImportedMsg (name : String) : String :=
  "The module " ++ name ++ " has been already imported."

/-- Outcome of the name-resolution phase of `addImport`
(JavaScript.ts:372-459). -/
inductive NameStageOut where
  | abortedPick
  | indexNotice (message : String)
  | proceed (name iden path : String)
deriving DecidableEq, Repr

/-- Name-resolution outcome together with which quick-picks were shown. -/
structure NameStageResult where
  out : NameStageOut
  promptedIndexPick : Bool
  promptedFilePick : Bool
deriving DecidableEq, Repr

/-- The default-export branch of the name-resolution phase
(JavaScript.ts:426-458), reached when no index file was chosen: when
the target file has no default-style export, either force a
namespace-style import (no exported names) or ask the user to choose between `*` and a
named export; a dismissed quick-pick aborts. -/
def defaultExportStage (inp : AddImportInputs) (name iden path : String) : NameStageResult :=
  if inp.foreignFileHasDefaultExport = false then
    match inp.exportedVariables with
    | [] => ⟨.proceed ("* as " ++ iden) iden path, false, false⟩
    | _ :: _ =>
      match inp.quickPickFileChoice with
      | none => ⟨.abortedPick, false, true⟩
      | some sel =>
        if sel = "*" then ⟨.proceed ("* as " ++ iden) iden path, false, true⟩
        else ⟨.proceed (bracedName sel) sel path, false, true⟩
  else ⟨.proceed name iden path, false, false⟩

/-- The check at JavaScript.ts:386-387: the index file's relative path
is already imported by a declaration that imports everything. -/
def indexDupHasEverything (existingImports : List ImportStatementForReadOnly)
    (indexRel : String) : Bool :=
  match getDuplicateImport existingImports indexRel with
  | some d => isMatchImportEverything d.node
  | none => false

/-- The name-resolution phase of `addImport` (JavaScript.ts:368-459):
under `require` syntax the initial name and path pass through; under
`import` syntax the index-file logic of lines 375-424 may rename, ask,
notify, or fall through to the default-export branch. -/
def nameStage (opts : LanguageOptions) (inp : AddImportInputs)
    (existingImports : List ImportStatementForReadOnly) : NameStageResult :=
  match opts.syntaxMode with
  | .requireMode => ⟨.proceed inp.initialName inp.initialName inp.initialPath, false, false⟩
  | .importMode =>
    if inp.hasIndexFile then
      if decide (0 < inp.exportedVariablesFromIndexFile.length) &&
          indexDupHasEverything existingImports inp.indexFileRelativePath then
        ⟨.indexNotice (alreadyImportedFromMsg inp.initialName inp.indexFileRelativePath),
          false, false⟩
      else
        match inp.exportedVariablesFromIndexFile with
        | [only] => ⟨.proceed (bracedName only) only inp.indexFileRelativePath, false, false⟩
        | [] => defaultExportStage inp inp.initialName inp.initialName inp.initialPath
        | _ :: _ :: _ =>
          match inp.quickPickIndexChoice with
          | none => ⟨.abortedPick, true, false⟩
          | some sel =>
            if sel = "*" then
              ⟨.proceed ("* as " ++ inp.initialName) inp.initialName
                inp.indexFileRelativePath, true, false⟩
            else ⟨.proceed (bracedName sel) sel inp.indexFileRelativePath, true, false⟩
    else defaultExportStage inp inp.initialName inp.initialName inp.initialPath

/-- Whether a specifier is a named import of exactly the identifier
`iden` (the check at JavaScript.ts:509:
`node.type === 'ImportSpecifier' && node.imported.name === iden`). -/
def bindsImportedName (iden : String) : ImportSpecifier → Bool
  | .importSpecifier imp _ _ => imp = iden
  | _ => false

/-- Outcome of the duplicate-import phase (JavaScript.ts:461-549):
either the run finishes inside the branch (`done`, possibly with a
merge edit or an informational message), or the code would throw
(`crashed`, `_.first`/`_.last` of an empty specifier list), or there is
no duplicate and control falls through to the conflict check. -/
inductive DupStageOut where
  | done (edits : List EditOp) (message : Option String)
  | crashed
  | noDuplicate
deriving DecidableEq, Repr

/-- The duplicate-import phase of `addImport` (JavaScript.ts:461-549),
transcribed branch by branch.  The brace-scanning range arithmetic of
lines 477-493 is abstracted as `inp.namespaceReplaceRange`. -/
def duplicateStage (opts : LanguageOptions) (inp : AddImportInputs)
    (name iden path : String) (existingImports : List ImportStatementForReadOnly) :
    DupStageOut :=
  match getDuplicateImport existingImports path with
  | none => .noDuplicate
  | some dup =>
    match dup.node with
    | .importDeclNode specs _ declLoc =>
      if opts.grouping then
        let dupEverything := specs.find? ImportSpecifier.isNamespaceSpec
        if dupEverything.isSome &&
            (strStartsWith name lbraceStr || strStartsWith name "*") then
          .done [] (some (alreadyImportedAsMsg path
            ((dupEverything.map ImportSpecifier.localName).getD "")))
        else if strStartsWith name "*" then
          match specs with
          | [] => .crashed
          | _ :: _ => .done [.replaceRange inp.namespaceReplaceRange name] none
        else
          let duplicateNamedImport := specs.find? fun s =>
            (s.isDefaultSpec && !(strStartsWith name lbraceStr)) || bindsImportedName iden s
          match duplicateNamedImport with
          | some _ => .done [] (some (alreadyImportedMsg iden))
          | none =>
            if strStartsWith name lbraceStr then
              match (specs.reverse).find? ImportSpecifier.isNamedSpec with
              | some lastNamed =>
                  .done [.insertAt (vsPos lastNamed.loc.stop) (", " ++ iden)] none
              | none =>
                match specs.getLast? with
                | some lastAny =>
                    .done [.insertAt (vsPos lastAny.loc.stop) (", " ++ name)] none
                | none => .crashed
            else
              .done [.insertAt ⟨declLoc.start.line - 1, declLoc.start.column + 7⟩
                (name ++ ", ")] none
      else .done [] (some (alreadyImportedMsg name))
    | _ => .done [] (some (alreadyImportedMsg name))

/-- The identifier-to-statement map built at JavaScript.ts:551-557:
pairs of bound local name and owning import record from every static
declaration of imports, empty names rejected; `_.fromPairs` keeps the last
pair for a repeated name. -/
def existingVariablePairs (existingImports : List ImportStatementForReadOnly) :
    List (String × ImportStatementForReadOnly) :=
  ((existingImports.filter fun it => it.node.isImportDeclNode).flatMap fun it =>
    match it.node with
    | .importDeclNode specs _ _ => specs.map fun s => (s.localName, it)
    | _ => []).filter fun p => p.1 ≠ ""

/-- The naming-conflict phase and final insertion of `addImport`
(JavaScript.ts:551-570).  When the chosen identifier is already bound
by an existing import, a modal dialog is shown; only the explicit
`Replace It` answer deletes the older statement, and in every case —
including a dismissed dialog — the new snippet is inserted before the
first existing import.  Returns the edits and whether the dialog was
shown. -/
def conflictStage (opts : LanguageOptions) (inp : AddImportInputs)
    (existingImports : List ImportStatementForReadOnly)
    (beforeFirstImport : SrcPos) (name iden path : String) : List EditOp × Bool :=
  let snippet := getImportSnippet (some name) path
    (decide (opts.syntaxMode = .importMode)) opts inp.eolCRLF
  match ((existingVariablePairs existingImports).reverse).find? fun p => p.1 = iden with
  | some p =>
    let deleteEdits : List EditOp :=
      match inp.conflictChoice with
      | some .replaceIt => [.deleteRange ⟨vsPos p.2.start, vsPos p.2.stop⟩]
      | _ => []
    (deleteEdits ++ [.insertAt beforeFirstImport snippet], true)
  | none => ([.insertAt beforeFirstImport snippet], false)

/-- The observable outcome of one `FileItem.addImport` run: the edits
applied to the document, the informational message shown (if any), and
which suspension points were presented. -/
structure AddImportRun where
  edits : List EditOp
  message : Option String
  promptedIndexPick : Bool
  promptedFilePick : Bool
  promptedConflict : Bool
deriving DecidableEq, Repr

/-- Embedding of `FileItem.addImport` (JavaScript.ts:350-594): parse
the document, compute the insertion point before the first existing
statement of imports, then run the JavaScript, stylesheet, or plain-asset branch.
`none` models a thrown exception. -/
def addImport (opts : LanguageOptions) (tree : Option CodeTree) (inp : AddImportInputs) :
    Option AddImportRun :=
  let existingImports := getExistingImports tree
  let beforeFirstImport : SrcPos :=
    match existingImports with
    | [] => ⟨0, 0⟩
    | fst :: _ => vsPos fst.start
  if inp.extensionMatches then
    let s1 := nameStage opts inp existingImports
    match s1.out with
    | .abortedPick => some ⟨[], none, s1.promptedIndexPick, s1.promptedFilePick, false⟩
    | .indexNotice m => some ⟨[], some m, s1.promptedIndexPick, s1.promptedFilePick, false⟩
    | .proceed name iden path =>
      match duplicateStage opts inp name iden path existingImports with
      | .crashed => none
      | .done edits msg =>
          some ⟨edits, msg, s1.promptedIndexPick, s1.promptedFilePick, false⟩
      | .noDuplicate =>
        let result := conflictStage opts inp existingImports beforeFirstImport name iden path
        some ⟨result.1, none, s1.promptedIndexPick, s1.promptedFilePick, result.2⟩
  else if inp.isStylesheetExtension then
    match getDuplicateImport existingImports inp.initialPath with
    | some _ => some ⟨[], some (alreadyImportedMsg inp.displayLabel), false, false, false⟩
    | none => some ⟨[.insertAt beforeFirstImport
        (getImportSnippet none inp.initialPath (decide (opts.syntaxMode = .importMode))
          opts inp.eolCRLF)], none, false, false, false⟩
  else
    some ⟨[.insertAt inp.cursorPosition
      (getImportSnippet none inp.initialPath false opts inp.eolCRLF)], none, false, false, false⟩

/-- A concrete options record used to exercise `addImport` on the
naming-conflict path: `require` syntax with grouping, single quotes and
semicolons. -/
def conflictDemoOpts : LanguageOptions :=
  ⟨.requireMode, true, false, false, .singleQuote, true⟩

/-- A concrete document containing `import a from './m'`, so that the
chosen identifier `a` collides with an existing binding. -/
def conflictDemoTree : CodeTree :=
  ⟨[.importDecl [.importDefaultSpecifier "a" ⟨⟨1, 7⟩, ⟨1, 8⟩⟩]
      ⟨"./m", ⟨⟨1, 14⟩, ⟨1, 19⟩⟩⟩ ⟨⟨1, 0⟩, ⟨1, 20⟩⟩]⟩

/-- Concrete `addImport` inputs whose chosen name `a` collides with the
existing binding of [`conflictDemoTree`] and whose conflict dialog is
dismissed. -/
def conflictDemoInputs : AddImportInputs :=
  { extensionMatches := true
    isStylesheetExtension := false
    displayLabel := "x"
    initialName := "a"
    initialPath := "./x"
    hasIndexFile := false
    exportedVariablesFromIndexFile := []
    indexFileRelativePath := ""
    foreignFileHasDefaultExport := true
    exportedVariables := []
    quickPickIndexChoice := none
    quickPickFileChoice := none
    conflictChoice := none
    namespaceReplaceRange := ⟨⟨1, 0⟩, ⟨1, 1⟩⟩
    cursorPosition := ⟨0, 0⟩
    eolCRLF := false }

/-- Concrete `addImport` inputs that reach the index-export quick-pick
(two exported names) and dismiss it. -/
def indexAbortDemoInputs : AddImportInputs :=
  { conflictDemoInputs with
    initialName := "m"
    initialPath := "./m"
    hasIndexFile := true
    exportedVariablesFromIndexFile := ["p", "q"]
    indexFileRelativePath := "./dir" }

/-- The `addImport` inputs of the duplicate-merge scenario: a JavaScript
target file with no index file and no default export, whose export
quick-pick returns the named export `b`, so that the computed binding is
the named form `{ b }`. -/
def mergeScenarioInputs (n0 p dl b : String) (evs : List String) (qpi : Option String)
    (cc : Option ConflictChoice) (nsr : SrcLoc) (cur : SrcPos) (eol : Bool) :
    AddImportInputs :=
  { extensionMatches := true
    isStylesheetExtension := false
    displayLabel := dl
    initialName := n0
    initialPath := p
    hasIndexFile := false
    exportedVariablesFromIndexFile := []
    indexFileRelativePath := ""
    foreignFileHasDefaultExport := false
    exportedVariables := evs
    quickPickIndexChoice := qpi
    quickPickFileChoice := some b
    conflictChoice := cc
    namespaceReplaceRange := nsr
    cursorPosition := cur
    eolCRLF := eol }

/-- The opening-brace character, written numerically. -/
def lbraceChar : Char := Char.ofNat 123

/-- The closing-brace character, written numerically. -/
def rbraceChar : Char := Char.ofNat 125

/-! ## Theorems -/

/-- The rank comparison is reflexive. -/
theorem rankLeB_refl (a : Option Nat) : rankLeB a a = true := by
  cases a <;> simp [rankLeB]

/-- The rank comparison is transitive. -/
theorem rankLeB_trans (a b c : Option Nat) (h1 : rankLeB a b = true) (h2 : rankLeB b c = true) :
    rankLeB a c = true := by
  cases a <;> cases b <;> cases c <;> simp_all [rankLeB] <;> omega

/-- The rank comparison is total. -/
theorem rankLeB_total (a b : Option Nat) : (rankLeB a b || rankLeB b a) = true := by
  cases a <;> cases b <;> simp [rankLeB] <;> omega

/-- A stable sort leaves every class of mutually-le elements (selected
by the predicate `p`) in its original order. -/
theorem mergeSort_stable_filter {α : Type} (le : α → α → Bool)
    (htrans : ∀ a b c, le a b = true → le b c = true → le a c = true)
    (htotal : ∀ a b, (le a b || le b a) = true)
    (l : List α) (p : α → Bool)
    (hp : ∀ a b, p a = true → p b = true → le a b = true) :
    (l.mergeSort le).filter p = l.filter p := by
  have hc : (l.filter p).Pairwise fun a b => le a b = true :=
    List.pairwise_of_forall_mem_list fun a ha b hb =>
      hp a b (List.mem_filter.mp ha).2 (List.mem_filter.mp hb).2
  have hsub : (l.filter p).Sublist (l.mergeSort le) :=
    List.sublist_mergeSort htrans htotal hc (List.filter_sublist l)
  have hself : (l.filter p).filter p = l.filter p := by
    simp [List.filter_filter, Bool.and_self]
  have hsub2 : (l.filter p).Sublist ((l.mergeSort le).filter p) := by
    have := hsub.filter p
    rwa [hself] at this
  have hlen : ((l.mergeSort le).filter p).length = (l.filter p).length :=
    ((l.mergeSort_perm le).filter p).length_eq
  exact (hsub2.eq_of_length hlen.symm).symm

/-- Looking up the just-stored key in `dataSet` yields the stored
value. -/
theorem dataSet_find (d : List (String × List String)) (k : String) (v : List String) :
    (List.find? (fun p => p.1 = k) (dataSet d k v)).map (fun p => p.2) = some v := by
  induction d with
  | nil => simp [dataSet]
  | cons hd tl ih =>
    by_cases h1 : hd.1 = k
    · simp [dataSet, h1]
    · by_cases h2 : tl.any fun p => decide (p.1 = k)
      · have hany : (hd :: tl).any (fun p => decide (p.1 = k)) = true := by
          simp [List.any_cons, h2]
        have hset : dataSet tl k v = tl.map fun p => if p.1 = k then (k, v) else p := by
          simp [dataSet, h2]
        simp only [dataSet, hany, if_true, List.map_cons, if_neg h1]
        rw [List.find?_cons_of_neg _ (by simp [h1]), ← hset]
        exact ih
      · have hany : (hd :: tl).any (fun p => decide (p.1 = k)) = false := by
          simp only [List.any_cons, Bool.or_eq_false_iff]
          exact ⟨decide_eq_false h1, Bool.eq_false_iff.mpr h2⟩
        have hset : dataSet tl k v = tl ++ [(k, v)] := by
          simp only [dataSet]
          rw [if_neg h2]
        simp only [dataSet, hany, Bool.false_eq_true, if_false, List.cons_append]
        rw [List.find?_cons_of_neg _ (by simp [h1]), ← hset]
        exact ih

/-- With a positive bound, the marked list starts with the selected
id. -/
theorem markedList_head (limit : Nat) (l : List String) (id : String) (h : 1 ≤ limit) :
    (markedList limit l id).head? = some id := by
  unfold markedList
  by_cases hlen : limit < ((id :: if l.contains id then l.erase id else l)).length
  · rw [if_pos hlen]
    have hne : (if l.contains id then l.erase id else l) ≠ [] := by
      intro he
      rw [he] at hlen
      simp only [List.length_cons, List.length_nil] at hlen
      omega
    rw [List.dropLast_cons_of_ne_nil hne]
    rfl
  · rw [if_neg hlen]
    rfl

/-- The part of the pre-update history that is not the selected id
survives the update as a sublist: no other entry's relative order
changes. -/
theorem markedList_filter_sublist (limit : Nat) (l : List String) (id : String) :
    ((markedList limit l id).filter fun x => x ≠ id).Sublist
      (l.filter fun x => x ≠ id) := by
  unfold markedList
  have h2 : (if l.contains id then l.erase id else l).Sublist l := by
    by_cases hc : l.contains id
    · rw [if_pos hc]; exact List.erase_sublist id l
    · rw [if_neg hc]
  have hcons : ((id :: if l.contains id then l.erase id else l).filter fun x => x ≠ id) =
      ((if l.contains id then l.erase id else l).filter fun x => x ≠ id) := by
    simp
  have hbase : ((id :: if l.contains id then l.erase id else l).filter fun x => x ≠ id).Sublist
      (l.filter fun x => x ≠ id) := by
    rw [hcons]
    exact h2.filter _
  by_cases hlen : limit < ((id :: if l.contains id then l.erase id else l)).length
  · rw [if_pos hlen]
    exact ((List.dropLast_sublist _).filter _).trans hbase
  · rw [if_neg hlen]
    exact hbase

/-- The update never duplicates an id: a duplicate-free history stays
duplicate-free. -/
theorem markedList_nodup (limit : Nat) (l : List String) (id : String) (hn : l.Nodup) :
    (markedList limit l id).Nodup := by
  unfold markedList
  have h2 : (if l.contains id then l.erase id else l).Nodup := by
    by_cases hc : l.contains id
    · rw [if_pos hc]; exact hn.erase id
    · rw [if_neg hc]; exact hn
  have hnm : id ∉ (if l.contains id then l.erase id else l) := by
    by_cases hc : l.contains id
    · rw [if_pos hc]; exact hn.not_mem_erase
    · rw [if_neg hc]; simpa using hc
  have hcons : (id :: if l.contains id then l.erase id else l).Nodup :=
    List.nodup_cons.mpr ⟨hnm, h2⟩
  by_cases hlen : limit < ((id :: if l.contains id then l.erase id else l)).length
  · rw [if_pos hlen]
    exact (List.dropLast_sublist _).nodup hcons
  · rw [if_neg hlen]
    exact hcons

/-- The update enforces the configured bound. -/
theorem markedList_length (limit : Nat) (l : List String) (id : String)
    (h : l.length ≤ limit) : (markedList limit l id).length ≤ limit := by
  unfold markedList
  have h2 : (if l.contains id then l.erase id else l).length ≤ l.length := by
    by_cases hc : l.contains id
    · rw [if_pos hc]; exact (List.erase_sublist id l).length_le
    · rw [if_neg hc]
  by_cases hlen : limit < ((id :: if l.contains id then l.erase id else l)).length
  · rw [if_pos hlen]
    rw [List.length_dropLast]
    simp only [List.length_cons] at hlen ⊢
    omega
  · rw [if_neg hlen]
    simp only [List.length_cons] at hlen ⊢
    omega

/-- C3: the claim's first half is what `JavaScript.parse` is written to
guarantee (a caught exception yields `null`) and the document-scanning
caller `getExistingImports` does treat a `null` tree as unanalyzable;
but the fix-broken-imports operation does not: `fixImport` reads
`codeTree.program.body` (JavaScript.ts:174-177) without a null check,
so on a malformed document it throws a `TypeError` instead of skipping.
This theorem evaluates the embedded code at the failing input: the
collection phase raises while `getExistingImports` returns `[]`. -/
theorem C3_parse_null_not_skipped_by_fixImport :
    fixImportTotalImports none = .error "TypeError: cannot read property of null" ∧
    getExistingImports none = [] :=
  ⟨rfl, rfl⟩

/-- C8: the binding-name transform is not total.  With no predefined
rule and the default naming convention, the raw name "0" is stripped to
the empty string, the character-filter match returns `null`
(embedded as `none`, where the source would throw on `.join('')`), and
the default character class keeps the digits 1-9 but drops the digit 0
(so "x0y1" becomes "xy1"). -/
theorem C8_getVariableName_not_total (caseFn : NamingConvention → String → String) :
    getVariableName caseFn [] .noneConvention "0" = none ∧
    isVariableChar '0' = false ∧
    isVariableChar '1' = true ∧
    isVariableChar '5' = true ∧
    isVariableChar '9' = true ∧
    getVariableName caseFn [] .noneConvention "x0y1" = some "xy1" :=
  ⟨rfl, by decide, by decide, by decide, by decide, rfl⟩

/-- C10: the export list computed by `getExportedVariables` never
contains the name `default`, at every recursion depth (hence also for
names gathered through star re-exports), because every recursive level
ends by rejecting `default` from its flattened result. -/
theorem C10_no_default_export_name (parseFile : String → Option CodeTree)
    (resolveExt : String → String → String) (fuel : Nat) (filePath : String) :
    "default" ∉ getExportedVariables parseFile resolveExt fuel filePath := by
  cases fuel with
  | zero => simp [getExportedVariables]
  | succ n =>
    cases hp : parseFile filePath with
    | none => simp [getExportedVariables, hp]
    | some t => simp [getExportedVariables, hp, List.mem_filter]

/-- C5 (counterexample): the recorded path is NOT the literal with
exactly one trailing slash trimmed.  For the import `import './a//'`
the code records `./a` (lodash `_.trimEnd` removes every trailing
slash), while one-slash trimming would record `./a/`. -/
theorem C5_counterexample :
    getExistingImports (some ⟨[.importDecl [] ⟨"./a//", ⟨⟨1, 0⟩, ⟨1, 10⟩⟩⟩ ⟨⟨1, 0⟩, ⟨1, 12⟩⟩]⟩) =
      [⟨.importDeclNode [] ⟨"./a//", ⟨⟨1, 0⟩, ⟨1, 10⟩⟩⟩ ⟨⟨1, 0⟩, ⟨1, 12⟩⟩,
        some "./a", ⟨1, 0⟩, ⟨1, 12⟩⟩] ∧
    ("./a" : String) ≠ "./a/" :=
  ⟨rfl, by decide⟩

/-- C5 (amended): every record extracted by `getExistingImports` comes
from one of the three recognized statement forms; the recorded source
range always equals the owning statement's range; the recorded path is
the literal with ALL trailing slashes trimmed for static import
declarations, and the untrimmed `arguments[0].value` for both require
forms. -/
theorem C5_extraction_shape (t : CodeTree) (r : ImportStatementForReadOnly)
    (h : r ∈ getExistingImports (some t)) :
    (∃ specs src loc, Stmt.importDecl specs src loc ∈ t.body ∧
      r = ⟨.importDeclNode specs src loc, some (trimTrailingSlashes src.value),
        loc.start, loc.stop⟩) ∨
    (∃ decls loc d, Stmt.variableDecl decls loc ∈ t.body ∧ d ∈ decls ∧
      matchesModuleRequire d = true ∧
      r = ⟨.declaratorNode d, requireArgPath d, loc.start, loc.stop⟩) ∨
    (∃ args cloc loc, Stmt.exprStmt (.callRequire args cloc) loc ∈ t.body ∧
      args.length = 1 ∧
      r = ⟨.exprRequireNode args loc, args.head?.bind Arg.value?, loc.start, loc.stop⟩) := by
  simp only [getExistingImports, List.append_assoc, List.mem_append] at h
  rcases h with h | h | h
  · left
    rcases List.mem_filterMap.mp h with ⟨s, hs, hf⟩
    match s with
    | .importDecl specs src loc =>
      simp only [Option.some.injEq] at hf
      exact ⟨specs, src, loc, hs, hf.symm⟩
    | .variableDecl _ _ => simp at hf
    | .exprStmt _ _ => simp at hf
    | .exportNamedDecl _ _ _ _ => simp at hf
    | .exportAllDecl _ _ => simp at hf
    | .exportDefaultDecl _ => simp at hf
    | .otherStmt _ => simp at hf
  · right; left
    rcases List.mem_flatMap.mp h with ⟨s, hs, hf⟩
    match s with
    | .variableDecl decls loc =>
      rcases List.mem_filterMap.mp hf with ⟨d, hd, hif⟩
      by_cases hm : matchesModuleRequire d
      · refine ⟨decls, loc, d, hs, hd, hm, ?_⟩
        simp only [hm, if_true, Option.some.injEq] at hif
        exact hif.symm
      · simp only [hm, if_false, Bool.false_eq_true, reduceCtorEq] at hif
    | .importDecl _ _ _ => simp at hf
    | .exprStmt _ _ => simp at hf
    | .exportNamedDecl _ _ _ _ => simp at hf
    | .exportAllDecl _ _ => simp at hf
    | .exportDefaultDecl _ => simp at hf
    | .otherStmt _ => simp at hf
  · right; right
    rcases List.mem_filterMap.mp h with ⟨s, hs, hf⟩
    match s with
    | .exprStmt (.callRequire args cloc) loc =>
      by_cases hl : args.length = 1
      · simp only [hl, if_true, Option.some.injEq] at hf
        exact ⟨args, cloc, loc, hs, hl, hf.symm⟩
      · simp only [hl, if_false, reduceCtorEq] at hf
    | .exprStmt (.callOther _ _) _ => simp at hf
    | .exprStmt (.assignModuleExports _ _) _ => simp at hf
    | .exprStmt (.otherExpr _) _ => simp at hf
    | .importDecl _ _ _ => simp at hf
    | .variableDecl _ _ => simp at hf
    | .exportNamedDecl _ _ _ _ => simp at hf
    | .exportAllDecl _ _ => simp at hf
    | .exportDefaultDecl _ => simp at hf
    | .otherStmt _ => simp at hf

/-- C5 (witness): the amended theorem applied at a concrete
require-initialized variable declaration, whose recorded path keeps its
trailing slash untrimmed. -/
theorem C5_extraction_shape_witness :
    (⟨.declaratorNode ⟨"b", some (.callRequire [.stringLit "./b/" ⟨⟨2, 10⟩, ⟨2, 16⟩⟩] ⟨⟨2, 8⟩, ⟨2, 17⟩⟩), ⟨⟨2, 4⟩, ⟨2, 17⟩⟩⟩,
        some "./b/", ⟨2, 0⟩, ⟨2, 18⟩⟩ : ImportStatementForReadOnly) ∈
      getExistingImports (some ⟨[.variableDecl
        [⟨"b", some (.callRequire [.stringLit "./b/" ⟨⟨2, 10⟩, ⟨2, 16⟩⟩] ⟨⟨2, 8⟩, ⟨2, 17⟩⟩), ⟨⟨2, 4⟩, ⟨2, 17⟩⟩⟩]
        ⟨⟨2, 0⟩, ⟨2, 18⟩⟩]⟩) ∧
    ((∃ specs src loc, Stmt.importDecl specs src loc ∈
        [Stmt.variableDecl
          [⟨"b", some (.callRequire [.stringLit "./b/" ⟨⟨2, 10⟩, ⟨2, 16⟩⟩] ⟨⟨2, 8⟩, ⟨2, 17⟩⟩), ⟨⟨2, 4⟩, ⟨2, 17⟩⟩⟩]
          ⟨⟨2, 0⟩, ⟨2, 18⟩⟩] ∧
      (⟨.declaratorNode ⟨"b", some (.callRequire [.stringLit "./b/" ⟨⟨2, 10⟩, ⟨2, 16⟩⟩] ⟨⟨2, 8⟩, ⟨2, 17⟩⟩), ⟨⟨2, 4⟩, ⟨2, 17⟩⟩⟩,
          some "./b/", ⟨2, 0⟩, ⟨2, 18⟩⟩ : ImportStatementForReadOnly) =
        ⟨.importDeclNode specs src loc, some (trimTrailingSlashes src.value),
          loc.start, loc.stop⟩) ∨
    (∃ decls loc d, Stmt.variableDecl decls loc ∈
        [Stmt.variableDecl
          [⟨"b", some (.callRequire [.stringLit "./b/" ⟨⟨2, 10⟩, ⟨2, 16⟩⟩] ⟨⟨2, 8⟩, ⟨2, 17⟩⟩), ⟨⟨2, 4⟩, ⟨2, 17⟩⟩⟩]
          ⟨⟨2, 0⟩, ⟨2, 18⟩⟩] ∧ d ∈ decls ∧
      matchesModuleRequire d = true ∧
      (⟨.declaratorNode ⟨"b", some (.callRequire [.stringLit "./b/" ⟨⟨2, 10⟩, ⟨2, 16⟩⟩] ⟨⟨2, 8⟩, ⟨2, 17⟩⟩), ⟨⟨2, 4⟩, ⟨2, 17⟩⟩⟩,
          some "./b/", ⟨2, 0⟩, ⟨2, 18⟩⟩ : ImportStatementForReadOnly) =
        ⟨.declaratorNode d, requireArgPath d, loc.start, loc.stop⟩) ∨
    (∃ args cloc loc, Stmt.exprStmt (.callRequire args cloc) loc ∈
        [Stmt.variableDecl
          [⟨"b", some (.callRequire [.stringLit "./b/" ⟨⟨2, 10⟩, ⟨2, 16⟩⟩] ⟨⟨2, 8⟩, ⟨2, 17⟩⟩), ⟨⟨2, 4⟩, ⟨2, 17⟩⟩⟩]
          ⟨⟨2, 0⟩, ⟨2, 18⟩⟩] ∧ args.length = 1 ∧
      (⟨.declaratorNode ⟨"b", some (.callRequire [.stringLit "./b/" ⟨⟨2, 10⟩, ⟨2, 16⟩⟩] ⟨⟨2, 8⟩, ⟨2, 17⟩⟩), ⟨⟨2, 4⟩, ⟨2, 17⟩⟩⟩,
          some "./b/", ⟨2, 0⟩, ⟨2, 18⟩⟩ : ImportStatementForReadOnly) =
        ⟨.exprRequireNode args loc, args.head?.bind Arg.value?, loc.start, loc.stop⟩)) :=
  ⟨by decide, C5_extraction_shape _ _ (by decide)⟩

/-- C9: an entry derived from a static import declaration enters the
fixable collection of `fixImport` exactly when its literal source
starts with `.` and contains none of `?`, `!`, `"` — so a relative path
holding any of those characters is never collected (and the later
search and rewrite loops only consume collected entries). -/
theorem C9_fixable_import_filter (t : CodeTree) (e : ImportStatementForFixingImport) :
    e ∈ importDeclEntries t ↔
      ∃ specs src loc, Stmt.importDecl specs src loc ∈ t.body ∧
        isFixableImportPath src.value = true ∧ e = mkFixStatement src.value src.loc := by
  constructor
  · intro h
    rcases List.mem_filterMap.mp h with ⟨s, hs, hf⟩
    match s with
    | .importDecl specs src loc =>
      by_cases hp : isFixableImportPath src.value
      · simp only [hp, if_true, Option.some.injEq] at hf
        exact ⟨specs, src, loc, hs, hp, hf.symm⟩
      · simp only [hp, if_false, Bool.false_eq_true, reduceCtorEq] at hf
    | .variableDecl _ _ => simp at hf
    | .exprStmt _ _ => simp at hf
    | .exportNamedDecl _ _ _ _ => simp at hf
    | .exportAllDecl _ _ => simp at hf
    | .exportDefaultDecl _ => simp at hf
    | .otherStmt _ => simp at hf
  · rintro ⟨specs, src, loc, hs, hp, rfl⟩
    exact List.mem_filterMap.mpr ⟨.importDecl specs src loc, hs, by simp [hp]⟩

/-- C6: when cancellation is never requested, the first resolution loop
of `fixImport` behaves exactly as claimed: every entry with exactly one
fuzzy match is rewritten in place — the literal's range is replaced by
the recomputed relative path wrapped in the entry's original quote
character — and such an entry is never deferred to the manual
(quick-pick) list, so it is never prompted for; every entry with zero
matches is recorded as unresolved and contributes no edit. -/
theorem C6_fix_resolution_policy (cancelled : Nat → Bool) (search : String → List String)
    (computeRel : String → String) (docText : SrcLoc → String) (i : Nat)
    (entries : List ImportStatementForFixingImport)
    (hc : ∀ j, cancelled j = false) :
    fixLoop1 cancelled search computeRel docText i entries =
      ⟨entries.filterMap (singleMatchEdit search computeRel docText),
        entries.filter (zeroMatches search),
        entries.filter (manyMatches search),
        false⟩ := by
  induction entries generalizing i with
  | nil => simp [fixLoop1]
  | cons e rest ih =>
    rw [fixLoop1, hc i, ih (i + 1)]
    cases hms : search e.originalRelativePath with
    | nil =>
      simp [singleMatchEdit, zeroMatches, manyMatches, hms]
    | cons m ms =>
      cases ms with
      | nil => simp [singleMatchEdit, zeroMatches, manyMatches, hms]
      | cons m2 ms2 => simp [singleMatchEdit, zeroMatches, manyMatches, hms]

/-- C6 (witness): the characterization applied at a concrete pass over
three broken entries — one with a single match (rewritten, quote
preserved), one with none (unresolved), one with two (deferred). -/
theorem C6_fix_resolution_policy_witness :
    fixLoop1 (fun _ => false)
        (fun p => if p = "./one" then ["/w/one.js"] else if p = "./zero" then [] else ["/a", "/b"])
        (fun m => "R" ++ m) (fun _ => doubleQuoteStr) 0
        [⟨"./one", ⟨⟨0, 0⟩, ⟨0, 7⟩⟩⟩, ⟨"./zero", ⟨⟨1, 0⟩, ⟨1, 8⟩⟩⟩, ⟨"./many", ⟨⟨2, 0⟩, ⟨2, 8⟩⟩⟩] =
      ⟨[.replaceRange ⟨⟨0, 0⟩, ⟨0, 7⟩⟩ (doubleQuoteStr ++ "R/w/one.js" ++ doubleQuoteStr)],
        [⟨"./zero", ⟨⟨1, 0⟩, ⟨1, 8⟩⟩⟩], [⟨"./many", ⟨⟨2, 0⟩, ⟨2, 8⟩⟩⟩], false⟩ :=
  (C6_fix_resolution_policy _ _ _ _ 0 _ (fun _ => rfl)).trans (by decide)

/-- C7: the recency tracker behaves as claimed.  (1) With no recorded
history, ranking returns the candidate list unchanged.  (2) Ranking is
always a permutation of the input; with history it is sorted by
recorded rank (a missing rank compares as infinity, so unranked items
come after all ranked ones), and every class of equally-ranked items —
in particular the whole unranked class — keeps its original relative
order (stability).  (3) Marking an id as used stores exactly the
move-to-front update `markedList`, whose head is the id (for a positive
bound), which never duplicates an id, which preserves the relative
order of all other entries, and which respects the configured bound by
dropping the oldest entry. -/
theorem C7_recency_rank_and_mark :
    (∀ (r : RecentSelectedItems) (lang : String) (items : List Item),
      r.has lang = false → r.sortItems lang items = items) ∧
    (∀ (r : RecentSelectedItems) (lang : String) (items : List Item),
      (r.sortItems lang items).Perm items) ∧
    (∀ (r : RecentSelectedItems) (lang : String) (items : List Item),
      r.has lang = true →
      (r.sortItems lang items).Pairwise fun a b =>
        recencyLe ((r.get lang).getD []) a b = true) ∧
    (∀ (r : RecentSelectedItems) (lang : String) (items : List Item) (k : Option Nat),
      (r.sortItems lang items).filter
          (fun it => decide (lastIdxOf ((r.get lang).getD []) it.id = k)) =
        items.filter fun it => decide (lastIdxOf ((r.get lang).getD []) it.id = k)) ∧
    (∀ (r : RecentSelectedItems) (lang id : String),
      (r.markAsRecentlyUsed lang id).get lang =
        some (markedList r.limit ((r.get lang).getD []) id)) ∧
    (∀ (limit : Nat) (l : List String) (id : String),
      (1 ≤ limit → (markedList limit l id).head? = some id) ∧
      ((markedList limit l id).filter fun x => x ≠ id).Sublist
        (l.filter fun x => x ≠ id) ∧
      (l.Nodup → (markedList limit l id).Nodup) ∧
      (l.length ≤ limit → (markedList limit l id).length ≤ limit)) := by
  refine ⟨?_, ?_, ?_, ?_, ?_, ?_⟩
  · intro r lang items h
    simp [RecentSelectedItems.sortItems, h]
  · intro r lang items
    by_cases h : r.has lang = false
    · simp [RecentSelectedItems.sortItems, h]
    · simp only [RecentSelectedItems.sortItems, h, if_false]
      exact List.mergeSort_perm items _
  · intro r lang items h
    unfold RecentSelectedItems.sortItems
    rw [if_neg (by simp [h])]
    exact @List.sorted_mergeSort Item (recencyLe ((r.get lang).getD []))
      (fun a b c h1 h2 => rankLeB_trans _ _ _ h1 h2)
      (fun a b => rankLeB_total _ _) items
  · intro r lang items k
    by_cases h : r.has lang = false
    · simp [RecentSelectedItems.sortItems, h]
    · unfold RecentSelectedItems.sortItems
      rw [if_neg h]
      refine mergeSort_stable_filter (recencyLe ((r.get lang).getD []))
        (fun a b c h1 h2 => rankLeB_trans _ _ _ h1 h2)
        (fun a b => rankLeB_total _ _) items _ ?_
      intro a b ha hb
      rw [decide_eq_true_eq] at ha hb
      unfold recencyLe
      rw [ha, hb]
      exact rankLeB_refl k
  · intro r lang id
    simp only [RecentSelectedItems.markAsRecentlyUsed, RecentSelectedItems.get]
    exact dataSet_find r.data lang (markedList r.limit ((r.get lang).getD []) id)
  · intro limit l id
    exact ⟨markedList_head limit l id, markedList_filter_sublist limit l id,
      markedList_nodup limit l id, markedList_length limit l id⟩

/-- C7 (witness): the conjuncts applied at concrete inputs — an empty
history leaves a list unchanged; marking `c` used in the history
`[x, a, c]` with bound 3 stores `[c, x, a]`, whose head is `c`. -/
theorem C7_recency_rank_and_mark_witness :
    RecentSelectedItems.sortItems ⟨[], 3⟩ "JavaScript" [⟨"a", "A"⟩, ⟨"b", "B"⟩] =
      [⟨"a", "A"⟩, ⟨"b", "B"⟩] ∧
    (RecentSelectedItems.markAsRecentlyUsed ⟨[("JavaScript", ["x", "a", "c"])], 3⟩
        "JavaScript" "c").get "JavaScript" =
      some (markedList 3 ["x", "a", "c"] "c") ∧
    (markedList 3 ["x", "a", "c"] "c").head? = some "c" ∧
    (markedList 3 ["x", "a", "c"] "c").Nodup :=
  ⟨C7_recency_rank_and_mark.1 _ _ _ (by decide),
    C7_recency_rank_and_mark.2.2.2.2.1 _ _ _,
    (C7_recency_rank_and_mark.2.2.2.2.2 3 ["x", "a", "c"] "c").1 (by decide),
    (C7_recency_rank_and_mark.2.2.2.2.2 3 ["x", "a", "c"] "c").2.2.1 (by decide)⟩

/-- C4 (counterexample): the file candidate cache CAN contain the
document currently being edited.  `getItems` builds the cache from
every workspace file (`findFiles('**/*.*')`, JavaScript.ts:62-67)
including the requesting document; the document is excluded only from
the returned list, by the `_.reject` at line 74.  Here a build
triggered from the document itself leaves a cached candidate whose id
is the document's own path. -/
theorem C4_counterexample :
    (((getItems ⟨none⟩ [⟨"/w/doc.js", "/w/doc.js", "js"⟩] ⟨"/w/doc.js", "/w/doc.js", "js"⟩
          false none (fun _ => "") (fun _ => "")).1.fileItemCache).getD []).any
        (fun it => it.id = (⟨"/w/doc.js", "/w/doc.js", "js"⟩ : FileInfoM).fullPath) = true := by
  decide

/-- C4 (amended): the invariant holds of the candidate list returned to
the requester, not of the cache: whenever every cached candidate's id
is its file's full path (which the `FileItem` constructor guarantees),
no item returned by `getItems` has the requesting document's path as
its id, because the document's own file is rejected on every request
before sorting. -/
theorem C4_returned_items_exclude_document (st : JsLanguageState)
    (workspaceFiles : List FileInfoM) (doc : FileInfoM) (allowTypeScriptFiles : Bool)
    (fileFilterRule : Option FileFilterRule)
    (sortKeyPath sortKeyName : FileItemM → String)
    (hwf : ∀ it ∈ ((getItems st workspaceFiles doc allowTypeScriptFiles fileFilterRule
        sortKeyPath sortKeyName).1.fileItemCache).getD [], it.id = it.fileInfo.fullPath)
    (it : FileItemM)
    (hm : it ∈ (getItems st workspaceFiles doc allowTypeScriptFiles fileFilterRule
        sortKeyPath sortKeyName).2) :
    it.id ≠ doc.fullPath := by
  simp only [getItems] at hwf hm ⊢
  set cache := (match st.fileItemCache with
    | some c => c
    | none => workspaceFiles.map mkFileItem) with hcache
  set flt := cache.filter fun it =>
    decide (it.fileInfo.fullPath ≠ doc.fullPath) &&
    (allowTypeScriptFiles || !isTypeScriptExtension it.fileInfo.fileExtensionWithoutLeadingDot) &&
    (match fileFilterRule with
     | some rule => rule.filePathTest it.fileInfo.fullPathForPOSIX
     | none => true) with hflt
  have hmem : it ∈ flt := ((flt.mergeSort_perm _).mem_iff).mp hm
  have hfl := List.mem_filter.mp hmem
  have hne : it.fileInfo.fullPath ≠ doc.fullPath := by
    have := hfl.2
    simp only [Bool.and_eq_true, decide_eq_true_eq] at this
    exact this.1.1
  have hid : it.id = it.fileInfo.fullPath := hwf it (by simpa using hfl.1)
  rw [hid]
  exact hne

/-- C4 (witness): the amended theorem applied at a concrete two-file
workspace: the returned sibling candidate's id differs from the
document's path. -/
theorem C4_returned_items_exclude_document_witness :
    (⟨"/w/a.js", ⟨"/w/a.js", "/w/a.js", "js"⟩⟩ : FileItemM).id ≠
      (⟨"/w/doc.js", "/w/doc.js", "js"⟩ : FileInfoM).fullPath :=
  C4_returned_items_exclude_document ⟨none⟩
    [⟨"/w/a.js", "/w/a.js", "js"⟩, ⟨"/w/doc.js", "/w/doc.js", "js"⟩]
    ⟨"/w/doc.js", "/w/doc.js", "js"⟩ false none (fun _ => "") (fun _ => "")
    (by decide) ⟨"/w/a.js", ⟨"/w/a.js", "/w/a.js", "js"⟩⟩
    (by simp only [getItems]
        exact List.mem_mergeSort.mpr (by decide))

/-- The default-export stage never shows the index quick-pick. -/
theorem defaultExportStage_indexPick_false (inp : AddImportInputs) (name iden path : String) :
    (defaultExportStage inp name iden path).promptedIndexPick = false := by
  unfold defaultExportStage
  split
  · split
    · rfl
    · split
      · rfl
      · split <;> rfl
  · rfl

/-- When the default-export stage shows the export quick-pick and the
pick is dismissed, the stage aborts. -/
theorem defaultExportStage_filePick_abort (inp : AddImportInputs) (name iden path : String)
    (hp : (defaultExportStage inp name iden path).promptedFilePick = true)
    (hc : inp.quickPickFileChoice = none) :
    (defaultExportStage inp name iden path).out = .abortedPick := by
  unfold defaultExportStage at hp ⊢
  by_cases hd : inp.foreignFileHasDefaultExport = false
  · rw [if_pos hd] at hp ⊢
    cases hevs : inp.exportedVariables with
    | nil => rw [hevs] at hp; simp at hp
    | cons v vs =>
      simp [hc]
  · rw [if_neg hd] at hp
    simp at hp

/-- When the name stage shows the index-export quick-pick and the pick
is dismissed, the stage aborts. -/
theorem nameStage_indexPick_abort (opts : LanguageOptions) (inp : AddImportInputs)
    (ex : List ImportStatementForReadOnly)
    (hp : (nameStage opts inp ex).promptedIndexPick = true)
    (hc : inp.quickPickIndexChoice = none) :
    (nameStage opts inp ex).out = .abortedPick := by
  unfold nameStage at hp ⊢
  cases hmode : opts.syntaxMode with
  | requireMode => rw [hmode] at hp; simp at hp
  | importMode =>
    rw [hmode] at hp
    simp only [] at hp ⊢
    by_cases hif : inp.hasIndexFile = true
    · rw [if_pos hif] at hp ⊢
      by_cases hcond : (decide (0 < inp.exportedVariablesFromIndexFile.length) &&
          indexDupHasEverything ex inp.indexFileRelativePath) = true
      · rw [if_pos hcond] at hp
        simp at hp
      · rw [if_neg hcond] at hp ⊢
        cases hevs : inp.exportedVariablesFromIndexFile with
        | nil =>
          rw [hevs] at hp
          simp only [] at hp
          rw [defaultExportStage_indexPick_false] at hp
          simp at hp
        | cons v vs =>
          cases vs with
          | nil => simp [hevs] at hp
          | cons w ws =>
            simp [hc]
    · rw [if_neg hif] at hp
      rw [defaultExportStage_indexPick_false] at hp
      simp at hp

/-- When the name stage shows the file-export quick-pick and the pick
is dismissed, the stage aborts. -/
theorem nameStage_filePick_abort (opts : LanguageOptions) (inp : AddImportInputs)
    (ex : List ImportStatementForReadOnly)
    (hp : (nameStage opts inp ex).promptedFilePick = true)
    (hc : inp.quickPickFileChoice = none) :
    (nameStage opts inp ex).out = .abortedPick := by
  unfold nameStage at hp ⊢
  cases hmode : opts.syntaxMode with
  | requireMode => rw [hmode] at hp; simp at hp
  | importMode =>
    rw [hmode] at hp
    simp only [] at hp ⊢
    by_cases hif : inp.hasIndexFile = true
    · rw [if_pos hif] at hp ⊢
      by_cases hcond : (decide (0 < inp.exportedVariablesFromIndexFile.length) &&
          indexDupHasEverything ex inp.indexFileRelativePath) = true
      · rw [if_pos hcond] at hp
        simp at hp
      · rw [if_neg hcond] at hp ⊢
        cases hevs : inp.exportedVariablesFromIndexFile with
        | nil =>
          rw [hevs] at hp
          simp only [] at hp
          exact defaultExportStage_filePick_abort inp _ _ _ hp hc
        | cons v vs =>
          cases vs with
          | nil => simp [hevs] at hp
          | cons w ws =>
            simp only [hevs] at hp
            cases hq : inp.quickPickIndexChoice with
            | none => simp [hq] at hp
            | some sel =>
              simp only [hq] at hp
              by_cases hs : sel = "*"
              · simp [if_pos hs] at hp
              · rw [if_neg hs] at hp; simp at hp
    · rw [if_neg hif] at hp ⊢
      exact defaultExportStage_filePick_abort inp _ _ _ hp hc

/-- When the conflict dialog is shown and dismissed, the stage still
emits exactly the snippet insertion (no deletion, no abort). -/
theorem conflictStage_dismiss (opts : LanguageOptions) (inp : AddImportInputs)
    (ex : List ImportStatementForReadOnly) (pos : SrcPos) (name iden path : String)
    (hp : (conflictStage opts inp ex pos name iden path).2 = true)
    (hc : inp.conflictChoice = none) :
    (conflictStage opts inp ex pos name iden path).1 =
      [.insertAt pos (getImportSnippet (some name) path
        (decide (opts.syntaxMode = .importMode)) opts inp.eolCRLF)] := by
  unfold conflictStage at hp ⊢
  cases hf : (existingVariablePairs ex).reverse.find? fun p => p.1 = iden with
  | none => simp [hf] at hp
  | some p =>
    simp [hf, hc]

/-- C1 (amended): for every `addImport` run, dismissing either of the
two quick-pick suspension points (index-export ambiguity at line 407,
default-export ambiguity at line 444) aborts the whole operation with
no edit and no message; but dismissing the naming-conflict dialog
(line 561) does NOT abort — the run still applies exactly one edit,
the insertion of the new import snippet (the older binding is simply
not deleted, as if `Keep Both` had been chosen). -/
theorem C1_abort_semantics (opts : LanguageOptions) (tree : Option CodeTree)
    (inp : AddImportInputs) (run : AddImportRun)
    (h : addImport opts tree inp = some run) :
    (run.promptedIndexPick = true → inp.quickPickIndexChoice = none →
      run.edits = [] ∧ run.message = none) ∧
    (run.promptedFilePick = true → inp.quickPickFileChoice = none →
      run.edits = [] ∧ run.message = none) ∧
    (run.promptedConflict = true → inp.conflictChoice = none →
      ∃ pos text, run.edits = [EditOp.insertAt pos text]) := by
  simp only [addImport] at h
  by_cases hext : inp.extensionMatches = true
  · rw [if_pos hext] at h
    cases hout : (nameStage opts inp (getExistingImports tree)).out with
    | abortedPick =>
      try rw [hout] at h
      simp only [] at h
      injection h with h
      subst h
      refine ⟨fun _ _ => ⟨rfl, rfl⟩, fun _ _ => ⟨rfl, rfl⟩, fun hcp _ => ?_⟩
      simp at hcp
    | indexNotice m =>
      try rw [hout] at h
      simp only [] at h
      injection h with h
      subst h
      refine ⟨fun h1 h2 => ?_, fun h1 h2 => ?_, fun hcp _ => ?_⟩
      · have := nameStage_indexPick_abort opts inp (getExistingImports tree) h1 h2
        rw [hout] at this
        simp at this
      · have := nameStage_filePick_abort opts inp (getExistingImports tree) h1 h2
        rw [hout] at this
        simp at this
      · simp at hcp
    | proceed name iden path =>
      try rw [hout] at h
      simp only [] at h
      cases hdup : duplicateStage opts inp name iden path (getExistingImports tree) with
      | crashed =>
        try rw [hdup] at h
        simp at h
      | done edits msg =>
        try rw [hdup] at h
        simp only [] at h
        injection h with h
        subst h
        refine ⟨fun h1 h2 => ?_, fun h1 h2 => ?_, fun hcp _ => ?_⟩
        · have := nameStage_indexPick_abort opts inp (getExistingImports tree) h1 h2
          rw [hout] at this
          simp at this
        · have := nameStage_filePick_abort opts inp (getExistingImports tree) h1 h2
          rw [hout] at this
          simp at this
        · simp at hcp
      | noDuplicate =>
        try rw [hdup] at h
        simp only [] at h
        injection h with h
        subst h
        refine ⟨fun h1 h2 => ?_, fun h1 h2 => ?_, fun hcp hcc => ?_⟩
        · have := nameStage_indexPick_abort opts inp (getExistingImports tree) h1 h2
          rw [hout] at this
          simp at this
        · have := nameStage_filePick_abort opts inp (getExistingImports tree) h1 h2
          rw [hout] at this
          simp at this
        · refine ⟨(match getExistingImports tree with
            | [] => ⟨0, 0⟩
            | fst :: _ => vsPos fst.start),
            getImportSnippet (some name) path
              (decide (opts.syntaxMode = .importMode)) opts inp.eolCRLF, ?_⟩
          exact conflictStage_dismiss opts inp (getExistingImports tree) _ name iden path hcp hcc
  · rw [if_neg hext] at h
    by_cases hcss : inp.isStylesheetExtension = true
    · rw [if_pos hcss] at h
      cases hdup : getDuplicateImport (getExistingImports tree) inp.initialPath with
      | none =>
        try rw [hdup] at h
        simp only [] at h
        injection h with h
        subst h
        exact ⟨fun h1 _ => by simp at h1, fun h1 _ => by simp at h1, fun h1 _ => by simp at h1⟩
      | some d =>
        try rw [hdup] at h
        simp only [] at h
        injection h with h
        subst h
        exact ⟨fun h1 _ => by simp at h1, fun h1 _ => by simp at h1, fun h1 _ => by simp at h1⟩
    · rw [if_neg hcss] at h
      injection h with h
      subst h
      exact ⟨fun h1 _ => by simp at h1, fun h1 _ => by simp at h1, fun h1 _ => by simp at h1⟩

/-- C1 (counterexample): dismissing the naming-conflict dialog does NOT
leave the document unmodified.  In a concrete run whose chosen
identifier collides with an existing binding, the dialog is shown
(`promptedConflict = true`), its choice is `none` (dismissed), and the
run still applies a non-empty edit list (the snippet insertion), so the
document text changes. -/
theorem C1_counterexample :
    (addImport conflictDemoOpts (some conflictDemoTree) conflictDemoInputs).map
        (fun r => (decide (r.edits = []), r.promptedConflict)) = some (false, true) ∧
    conflictDemoInputs.conflictChoice = none := by
  exact ⟨by decide, rfl⟩

/-- C1 (witness): the amended theorem applied at a concrete run that
reaches the index-export quick-pick with a dismissed pick: the run
aborts with no edits and no message. -/
theorem C1_abort_semantics_witness :
    (⟨[], none, true, false, false⟩ : AddImportRun).edits = [] ∧
    (⟨[], none, true, false, false⟩ : AddImportRun).message = none :=
  (C1_abort_semantics ⟨.importMode, true, false, false, .singleQuote, true⟩
    (some conflictDemoTree) indexAbortDemoInputs ⟨[], none, true, false, false⟩
    (by decide)).1 rfl rfl

/-- The character list of a braced binding name. -/
theorem bracedName_data (x : String) :
    (bracedName x).data = lbraceChar :: ' ' :: (x.data ++ [' ', rbraceChar]) := by
  simp [bracedName, lbraceStr, rbraceStr, String.data_append, lbraceChar, rbraceChar]

/-- A braced binding name starts with an opening brace. -/
theorem strStartsWith_bracedName_lbrace (x : String) :
    strStartsWith (bracedName x) lbraceStr = true := by
  show List.isPrefixOf lbraceStr.data (bracedName x).data = true
  rw [bracedName_data]
  rw [show lbraceStr.data = [lbraceChar] from rfl]
  simp [List.isPrefixOf]

/-- A braced binding name does not start with a star. -/
theorem strStartsWith_bracedName_star (x : String) :
    strStartsWith (bracedName x) "*" = false := by
  show List.isPrefixOf "*".data (bracedName x).data = false
  rw [bracedName_data]
  rw [show "*".data = ['*'] from rfl]
  simp [List.isPrefixOf, lbraceChar]

/-- C2: the merge protocol of the duplicate-import branch, in the
scenario that computes the named binding form (import syntax, grouping
enabled, export quick-pick answering `b`), against a document whose
only import statement is a static import of the same path.  First
conjunct: when the declaration binds named specifiers but not `b`, the
run applies exactly one edit — the insertion of `", b"` immediately
after the end of the last existing named specifier, i.e. inside the one
existing declaration's brace list, appending the new binding after the
existing ones — and reports nothing; no new import statement is added.
Second conjunct: when the declaration already binds `b`, the run
applies no edit and reports the duplicate notification. -/
theorem C2_grouped_merge (fe ifx semi eol : Bool) (q : QuoteKind)
    (n0 p dl b psrc : String) (evs : List String) (qpi : Option String)
    (cc : Option ConflictChoice) (nsr slitLoc declLoc : SrcLoc) (cur : SrcPos)
    (specs : List ImportSpecifier)
    (hevs : evs ≠ []) (hb : ¬(b = "*"))
    (hpath : trimTrailingSlashes psrc = p)
    (hns : specs.find? ImportSpecifier.isNamespaceSpec = none) :
    (∀ lastNamed, (specs.reverse).find? ImportSpecifier.isNamedSpec = some lastNamed →
      (∀ s ∈ specs, bindsImportedName b s = false) →
      addImport ⟨.importMode, true, fe, ifx, q, semi⟩
          (some ⟨[.importDecl specs ⟨psrc, slitLoc⟩ declLoc]⟩)
          (mergeScenarioInputs n0 p dl b evs qpi cc nsr cur eol) =
        some ⟨[.insertAt (vsPos lastNamed.loc.stop) (", " ++ b)], none, false, true, false⟩) ∧
    ((∃ s ∈ specs, bindsImportedName b s = true) →
      addImport ⟨.importMode, true, fe, ifx, q, semi⟩
          (some ⟨[.importDecl specs ⟨psrc, slitLoc⟩ declLoc]⟩)
          (mergeScenarioInputs n0 p dl b evs qpi cc nsr cur eol) =
        some ⟨[], some (alreadyImportedMsg b), false, true, false⟩) := by
  obtain ⟨v, vs, rfl⟩ : ∃ v vs, evs = v :: vs := by
    cases evs with
    | nil => exact absurd rfl hevs
    | cons v vs => exact ⟨v, vs, rfl⟩
  have hstage : ∀ ex, nameStage ⟨.importMode, true, fe, ifx, q, semi⟩
      (mergeScenarioInputs n0 p dl b (v :: vs) qpi cc nsr cur eol) ex =
      ⟨.proceed (bracedName b) b p, false, true⟩ := by
    intro ex
    simp [nameStage, defaultExportStage, mergeScenarioInputs, hb]
  have hex : getExistingImports (some ⟨[.importDecl specs ⟨psrc, slitLoc⟩ declLoc]⟩) =
      [⟨ImportNode.importDeclNode specs ⟨psrc, slitLoc⟩ declLoc,
        some (trimTrailingSlashes psrc), declLoc.start, declLoc.stop⟩] := rfl
  have hdup : getDuplicateImport
      [⟨ImportNode.importDeclNode specs ⟨psrc, slitLoc⟩ declLoc,
        some (trimTrailingSlashes psrc), declLoc.start, declLoc.stop⟩] p =
      some ⟨ImportNode.importDeclNode specs ⟨psrc, slitLoc⟩ declLoc,
        some (trimTrailingSlashes psrc), declLoc.start, declLoc.stop⟩ := by
    simp [getDuplicateImport, hpath]
  constructor
  · intro lastNamed hlast hA
    have hfindA : specs.find? (fun s => bindsImportedName b s) = none := by
      apply List.find?_eq_none.mpr
      intro x hx
      simp [hA x hx]
    have hds : duplicateStage ⟨.importMode, true, fe, ifx, q, semi⟩
        (mergeScenarioInputs n0 p dl b (v :: vs) qpi cc nsr cur eol)
        (bracedName b) b p
        [⟨ImportNode.importDeclNode specs ⟨psrc, slitLoc⟩ declLoc,
          some (trimTrailingSlashes psrc), declLoc.start, declLoc.stop⟩] =
        .done [.insertAt (vsPos lastNamed.loc.stop) (", " ++ b)] none := by
      simp [duplicateStage, hdup, hns, strStartsWith_bracedName_star,
        strStartsWith_bracedName_lbrace, hfindA, hlast]
    have hextm : (mergeScenarioInputs n0 p dl b (v :: vs) qpi cc nsr cur eol).extensionMatches =
        true := rfl
    simp only [addImport, hex]
    simp only [hextm, if_true, hstage, hds]
  · rintro ⟨s0, hs0, hbind⟩
    have hsome : (specs.find? fun s => bindsImportedName b s).isSome = true :=
      List.find?_isSome.mpr ⟨s0, hs0, hbind⟩
    obtain ⟨sf, hfindB⟩ := Option.isSome_iff_exists.mp hsome
    have hds : duplicateStage ⟨.importMode, true, fe, ifx, q, semi⟩
        (mergeScenarioInputs n0 p dl b (v :: vs) qpi cc nsr cur eol)
        (bracedName b) b p
        [⟨ImportNode.importDeclNode specs ⟨psrc, slitLoc⟩ declLoc,
          some (trimTrailingSlashes psrc), declLoc.start, declLoc.stop⟩] =
        .done [] (some (alreadyImportedMsg b)) := by
      simp [duplicateStage, hdup, hns, strStartsWith_bracedName_star,
        strStartsWith_bracedName_lbrace, hfindB]
    have hextm : (mergeScenarioInputs n0 p dl b (v :: vs) qpi cc nsr cur eol).extensionMatches =
        true := rfl
    simp only [addImport, hex]
    simp only [hextm, if_true, hstage, hds]

/-- C2 (witness): the merge theorem applied at concrete inputs —
merging `b` into `import { a } from './m'` inserts `", b"` after the
specifier `a`, and re-adding `b` to `import { b } from './m'` applies
no edit and reports the duplicate. -/
theorem C2_grouped_merge_witness :
    addImport ⟨.importMode, true, false, false, .singleQuote, true⟩
        (some ⟨[.importDecl [.importSpecifier "a" "a" ⟨⟨1, 9⟩, ⟨1, 10⟩⟩]
          ⟨"./m", ⟨⟨1, 18⟩, ⟨1, 23⟩⟩⟩ ⟨⟨1, 0⟩, ⟨1, 24⟩⟩]⟩)
        (mergeScenarioInputs "m" "./m" "m" "b" ["b"] none none
          ⟨⟨1, 0⟩, ⟨1, 1⟩⟩ ⟨0, 0⟩ false) =
      some ⟨[.insertAt ⟨0, 10⟩ (", " ++ "b")], none, false, true, false⟩ ∧
    addImport ⟨.importMode, true, false, false, .singleQuote, true⟩
        (some ⟨[.importDecl [.importSpecifier "b" "b" ⟨⟨1, 9⟩, ⟨1, 10⟩⟩]
          ⟨"./m", ⟨⟨1, 18⟩, ⟨1, 23⟩⟩⟩ ⟨⟨1, 0⟩, ⟨1, 24⟩⟩]⟩)
        (mergeScenarioInputs "m" "./m" "m" "b" ["b"] none none
          ⟨⟨1, 0⟩, ⟨1, 1⟩⟩ ⟨0, 0⟩ false) =
      some ⟨[], some (alreadyImportedMsg "b"), false, true, false⟩ :=
  ⟨(C2_grouped_merge false false true false .singleQuote "m" "./m" "m" "b" "./m" ["b"]
      none none ⟨⟨1, 0⟩, ⟨1, 1⟩⟩ ⟨⟨1, 18⟩, ⟨1, 23⟩⟩ ⟨⟨1, 0⟩, ⟨1, 24⟩⟩ ⟨0, 0⟩
      [.importSpecifier "a" "a" ⟨⟨1, 9⟩, ⟨1, 10⟩⟩]
      (by decide) (by decide) (by decide) (by decide)).1
      (.importSpecifier "a" "a" ⟨⟨1, 9⟩, ⟨1, 10⟩⟩) (by decide) (by decide),
    (C2_grouped_merge false false true false .singleQuote "m" "./m" "m" "b" "./m" ["b"]
      none none ⟨⟨1, 0⟩, ⟨1, 1⟩⟩ ⟨⟨1, 18⟩, ⟨1, 23⟩⟩ ⟨⟨1, 0⟩, ⟨1, 24⟩⟩ ⟨0, 0⟩
      [.importSpecifier "b" "b" ⟨⟨1, 9⟩, ⟨1, 10⟩⟩]
      (by decide) (by decide) (by decide) (by decide)).2
      ⟨.importSpecifier "b" "b" ⟨⟨1, 9⟩, ⟨1, 10⟩⟩, by decide, by decide⟩⟩

end VH
